import Mathlib

/-!
Verification of the recommendation-synthesis pipeline of the prompt-analyzer
repository (`prompt_analyzer/recommend/analyzer.py`).

The development shallowly embeds the Python module: strings are `List Char`
(or Lean `String` for template building), Python `json.loads`/`json.dumps`
are modeled by an executable parser/serializer pair over a `Json` inductive
(numbers are modeled as integers, which covers every value exercised here;
string escapes for quote, backslash, newline, tab and carriage return are
modeled; duplicate object keys never arise in the serialized values used),
the external `cursor-agent` subprocess is an oracle value `AgentBehavior`,
and Python exceptions escaping a function are `Except.error` values.
-/

mutual

/-- JSON values, as produced by the json module (numbers restricted to
integers; that is the only numeric shape the analyzer's data exercises). -/
inductive Json where
  | null : Json
  | bool (b : Bool) : Json
  | num (n : Int) : Json
  | str (s : List Char) : Json
  | arr (elems : JsonList) : Json
  | obj (members : JsonObj) : Json
deriving DecidableEq

inductive JsonList where
  | nil : JsonList
  | cons (head : Json) (tail : JsonList) : JsonList
deriving DecidableEq

inductive JsonObj where
  | nil : JsonObj
  | cons (key : List Char) (value : Json) (tail : JsonObj) : JsonObj
deriving DecidableEq

end

/-- The character `{` (written via its code point to keep it out of string
literals). -/
def lbrace : Char := Char.ofNat 123

/-- The character `}`. -/
def rbrace : Char := Char.ofNat 125

/-- The character `[`. -/
def lbrack : Char := Char.ofNat 91

/-- The character `]`. -/
def rbrack : Char := Char.ofNat 93

/-- The character `"`. -/
def quot : Char := Char.ofNat 34

/-- The character `\`. -/
def backslash : Char := Char.ofNat 92

/-- Whitespace characters recognized by `str.strip` and the JSON parser. -/
def isWs (c : Char) : Bool :=
  c = ' ' || c = '\n' || c = '\t' || c = '\r'

/-- Decimal digit test (spelled out so that every fact about digits is a
ten-way case split on concrete characters). -/
def isDigitC (c : Char) : Bool :=
  c = '0' || c = '1' || c = '2' || c = '3' || c = '4' ||
  c = '5' || c = '6' || c = '7' || c = '8' || c = '9'

/-- Numeric value of a decimal digit character. -/
def digitVal (c : Char) : Nat := c.toNat - 48

/-- Decimal digits of `n`, most significant first, as characters. -/
def natToChars (n : Nat) : List Char :=
  if n = 0 then ['0'] else ((Nat.digits 10 n).map Nat.digitChar).reverse

/-- Decimal rendering of an integer, as `json.dumps` renders Python ints. -/
def intToChars (n : Int) : List Char :=
  if n < 0 then '-' :: natToChars n.natAbs else natToChars n.natAbs

/-- Escape one character inside a JSON string literal (the escapes
`json.dumps` emits for the characters this development exercises). -/
def escapeChar (c : Char) : List Char :=
  if c = quot then [backslash, quot]
  else if c = backslash then [backslash, backslash]
  else if c = '\n' then [backslash, 'n']
  else if c = '\t' then [backslash, 't']
  else if c = '\r' then [backslash, 'r']
  else [c]

/-- Escape a whole string body. -/
def escapeStr (s : List Char) : List Char :=
  match s with
  | [] => []
  | c :: t => escapeChar c ++ escapeStr t

mutual

/-- Compact serialization of a JSON value: `json.dumps` modulo the optional
whitespace after separators, which `json.loads` ignores anyway. -/
def serializeJson : Json → List Char
  | .null => "null".data
  | .bool true => "true".data
  | .bool false => "false".data
  | .num n => intToChars n
  | .str s => quot :: (escapeStr s ++ [quot])
  | .arr .nil => [lbrack, rbrack]
  | .arr (.cons h t) => lbrack :: (serializeJson h ++ serializeItemsTail t)
  | .obj .nil => [lbrace, rbrace]
  | .obj (.cons k v t) =>
    lbrace :: ((quot :: (escapeStr k ++ [quot] ++ (':' :: serializeJson v))) ++
      serializeMembersTail t)
termination_by structural v => v

/-- Serialization of the remaining array elements, each preceded by a comma,
closed by `]`. -/
def serializeItemsTail : JsonList → List Char
  | .nil => [rbrack]
  | .cons h t => ',' :: (serializeJson h ++ serializeItemsTail t)
termination_by structural t => t

/-- Serialization of the remaining object members (each written
`"key":value`), each preceded by a comma, closed by `}`. -/
def serializeMembersTail : JsonObj → List Char
  | .nil => [rbrace]
  | .cons k v t =>
    ',' :: ((quot :: (escapeStr k ++ [quot] ++ (':' :: serializeJson v))) ++
      serializeMembersTail t)
termination_by structural t => t

end

/-- Serialization of one object member `"key":value` (the shape inlined in
the two object cases above). -/
def serializeMember (k : List Char) (v : Json) : List Char :=
  quot :: (escapeStr k ++ [quot] ++ (':' :: serializeJson v))

/-- Drop leading whitespace. -/
def skipWs : List Char → List Char
  | [] => []
  | c :: t => if isWs c then skipWs t else c :: t

/-- Unescape the character following a backslash in a string literal. -/
def unescapeChar (c : Char) : Option Char :=
  if c = quot then some quot
  else if c = backslash then some backslash
  else if c = '/' then some '/'
  else if c = 'n' then some '\n'
  else if c = 't' then some '\t'
  else if c = 'r' then some '\r'
  else none

mutual

/-- Parse the body of a string literal after the opening quote, up to and
including the closing quote; returns the decoded body and the rest. -/
def parseStringBody : List Char → Option (List Char × List Char)
  | [] => none
  | c :: t =>
    if c = quot then some ([], t)
    else if c = backslash then parseEscapeSeq t
    else
      match parseStringBody t with
      | none => none
      | some (s, r) => some (c :: s, r)
termination_by structural s => s

/-- Parse the remainder of a string-literal body right after a backslash. -/
def parseEscapeSeq : List Char → Option (List Char × List Char)
  | [] => none
  | e :: t2 =>
    match unescapeChar e with
    | none => none
    | some c2 =>
      match parseStringBody t2 with
      | none => none
      | some (s, r) => some (c2 :: s, r)
termination_by structural s => s

end

/-- Consume a maximal run of decimal digits, accumulating their value. -/
def parseDigits : List Char → Nat → Nat × List Char
  | [], acc => (acc, [])
  | c :: t, acc =>
    if isDigitC c then parseDigits t (acc * 10 + digitVal c)
    else (acc, c :: t)

/-- Parse an integer literal (optional minus sign, then digits). -/
def parseNumber : List Char → Option (Int × List Char)
  | [] => none
  | c :: t =>
    if c = '-' then
      match t with
      | [] => none
      | d :: _ =>
        if isDigitC d then
          some (-((parseDigits t 0).1 : Int), (parseDigits t 0).2)
        else none
    else if isDigitC c then
      some (((parseDigits (c :: t) 0).1 : Int), (parseDigits (c :: t) 0).2)
    else none

mutual

/-- Fuel-indexed JSON value parser (recursive descent; the fuel only needs
to dominate the node count of the value being parsed). -/
def parseValue : Nat → List Char → Option (Json × List Char)
  | 0, _ => none
  | fuel + 1, s =>
    match skipWs s with
    | [] => none
    | c :: t =>
      if c = '-' || isDigitC c then
        match parseNumber (c :: t) with
        | some (n, r) => some (.num n, r)
        | none => none
      else if c = quot then
        match parseStringBody t with
        | some (b, r) => some (.str b, r)
        | none => none
      else if c = lbrace then
        match skipWs t with
        | [] => none
        | c2 :: t2 =>
          if c2 = rbrace then some (.obj .nil, t2)
          else
            match parseMembers fuel (c2 :: t2) with
            | some (kvs, r) => some (.obj kvs, r)
            | none => none
      else if c = lbrack then
        match skipWs t with
        | [] => none
        | c2 :: t2 =>
          if c2 = rbrack then some (.arr .nil, t2)
          else
            match parseItems fuel (c2 :: t2) with
            | some (xs, r) => some (.arr xs, r)
            | none => none
      else if c = 'n' then
        match t with
        | c1 :: c2 :: c3 :: r =>
          if c1 = 'u' && c2 = 'l' && c3 = 'l' then some (.null, r) else none
        | _ => none
      else if c = 't' then
        match t with
        | c1 :: c2 :: c3 :: r =>
          if c1 = 'r' && c2 = 'u' && c3 = 'e' then some (.bool true, r) else none
        | _ => none
      else if c = 'f' then
        match t with
        | c1 :: c2 :: c3 :: c4 :: r =>
          if c1 = 'a' && c2 = 'l' && c3 = 's' && c4 = 'e' then some (.bool false, r)
          else none
        | _ => none
      else none

/-- Parse one or more comma-separated array elements up to the closing `]`. -/
def parseItems : Nat → List Char → Option (JsonList × List Char)
  | 0, _ => none
  | fuel + 1, s =>
    match parseValue fuel s with
    | none => none
    | some (v, r) =>
      match skipWs r with
      | [] => none
      | c :: t =>
        if c = ',' then
          match parseItems fuel t with
          | some (xs, r2) => some (.cons v xs, r2)
          | none => none
        else if c = rbrack then some (.cons v .nil, t)
        else none

/-- Parse one or more comma-separated object members up to the closing `}`. -/
def parseMembers : Nat → List Char → Option (JsonObj × List Char)
  | 0, _ => none
  | fuel + 1, s =>
    match skipWs s with
    | [] => none
    | c :: t =>
      if c = quot then
        match parseStringBody t with
        | none => none
        | some (k, r) =>
          match skipWs r with
          | [] => none
          | c2 :: t2 =>
            if c2 = ':' then
              match parseValue fuel t2 with
              | none => none
              | some (v, r2) =>
                match skipWs r2 with
                | [] => none
                | c3 :: t3 =>
                  if c3 = ',' then
                    match parseMembers fuel t3 with
                    | some (kvs, r3) => some (.cons k v kvs, r3)
                    | none => none
                  else if c3 = rbrace then some (.cons k v .nil, t3)
                  else none
            else none
      else none

end

/-- Model of Python `json.loads`: parse one value, then require that only
whitespace remains (Python raises "Extra data" otherwise, which reaches the
callers of this model as a `none`). -/
def json_loads (s : List Char) : Option Json :=
  match parseValue (s.length + 1) s with
  | some (v, rest) => if (skipWs rest).isEmpty then some v else none
  | none => none

/-- Python `str.find` helper: index of the first occurrence of `c` at or
after position `i`, or `-1`. -/
def strFindAux (s : List Char) (c : Char) (i : Nat) : Int :=
  match s with
  | [] => -1
  | x :: t => if x = c then (i : Int) else strFindAux t c (i + 1)

/-- Python `str.find`: index of the first occurrence of `c`, or `-1`. -/
def strFind (s : List Char) (c : Char) : Int := strFindAux s c 0

/-- Python `str.rfind`: index of the last occurrence of `c`, or `-1`. -/
def strRfind : List Char → Char → Int
  | [], _ => -1
  | x :: t, c =>
    let r := strRfind t c
    if r ≥ 0 then r + 1 else if x = c then 0 else -1

/-- Python slice `s[a:b]` for the non-negative bounds the analyzer uses. -/
def pySlice (s : List Char) (a b : Int) : List Char :=
  (s.take b.toNat).drop a.toNat

/-- Python `str.strip` (with the whitespace alphabet of `isWs`). -/
def pyStrip (s : List Char) : List Char :=
  ((s.dropWhile (isWs ·)).reverse.dropWhile (isWs ·)).reverse

/-- First-match lookup in a JSON object (dict lookup; the parser and the
analyzer never materialize duplicate keys). -/
def objLookup : JsonObj → List Char → Option Json
  | .nil, _ => none
  | .cons k v t, key => if k = key then some v else objLookup t key

/-- Python dict assignment `d[k] = v`: replace the value at `k` in place if
the key exists, else append the new binding. -/
def dictSet : JsonObj → List Char → Json → JsonObj
  | .nil, k, v => .cons k v .nil
  | .cons k0 v0 t, k, v =>
    if k0 = k then .cons k0 v t else .cons k0 v0 (dictSet t k v)

/-- Python truthiness of a decoded JSON value (`if not response:`). -/
def pyFalsy : Json → Bool
  | .null => true
  | .bool b => !b
  | .num n => n = 0
  | .str s => s.isEmpty
  | .arr .nil => true
  | .arr (.cons _ _) => false
  | .obj .nil => true
  | .obj (.cons _ _ _) => false

/-- Python exceptions that can escape the aggregator functions. -/
inductive PyErr where
  | attributeError : PyErr
  | typeError : PyErr
deriving DecidableEq

/-- Python `response.get(key, default)`: attribute error unless the receiver
is a dict. -/
def pyDictGet (r : Json) (key : List Char) (default : Json) : Except PyErr Json :=
  match r with
  | .obj kvs => .ok ((objLookup kvs key).getD default)
  | _ => .error .attributeError

/-- The key strings used by the analyzer. -/
def resultKey : List Char := "result".data

/-- The `recommendations` key. -/
def recommendationsKey : List Char := "recommendations".data

/-- The `scope` key. -/
def scopeKey : List Char := "scope".data

/-- The `project_path` key. -/
def projectPathKey : List Char := "project_path".data

/-- Tag one recommendation: `rec["scope"] = sv; rec["project_path"] = pv`.
Item assignment on a non-dict raises `TypeError`. -/
def tagOne (sv pv : Json) : Json → Except PyErr Json
  | .obj kvs => .ok (.obj (dictSet (dictSet kvs scopeKey sv) projectPathKey pv))
  | _ => .error .typeError

/-- Tag every element of a decoded JSON array (the first `TypeError`
aborts the loop, as in Python). -/
def tagList (sv pv : Json) : JsonList → Except PyErr JsonList
  | .nil => .ok .nil
  | .cons r t =>
    match tagOne sv pv r with
    | .error e => .error e
    | .ok r2 =>
      match tagList sv pv t with
      | .error e => .error e
      | .ok t2 => .ok (.cons r2 t2)

/-- The loop `for rec in recommendations: rec["scope"] = ...` over a decoded
JSON value: iterates arrays; iterating a non-empty string or dict yields
strings whose item assignment raises `TypeError`; `None`, booleans and
numbers are not iterable (`TypeError`); empty iterables fall through and the
value is returned unchanged. -/
def tagRecommendations (sv pv : Json) : Json → Except PyErr Json
  | .arr xs => (tagList sv pv xs).map Json.arr
  | .str [] => .ok (.str [])
  | .str (_ :: _) => .error .typeError
  | .obj .nil => .ok (.obj .nil)
  | .obj (.cons _ _ _) => .error .typeError
  | .null => .error .typeError
  | .bool _ => .error .typeError
  | .num _ => .error .typeError

/-- The optional project path as the JSON value Python would store
(`None` becomes null). -/
def optPathJson : Option String → Json
  | none => Json.null
  | some p => Json.str p.data

/-- Outcome of the one `subprocess.run` call made by `call_cursor_agent`:
either one of the three exceptional terminations the source catches, or a
completed process with an exit code and captured streams. -/
inductive AgentBehavior where
  | timeoutExpired : AgentBehavior
  | fileNotFound : AgentBehavior
  | otherException : AgentBehavior
  | completed (returncode : Int) (stdout : String) (stderr : String) : AgentBehavior

/-- Recovery attempt on the raw output used by the
`except json.JSONDecodeError` handler of `call_cursor_agent` (lines
145-154): substring between the first brace and the last brace if such a
span exists, else re-raise (which the outer handler turns into `None`). A
parse failure of the substring also propagates to the outer handler. -/
def recoverFromRaw (output : List Char) : Option Json :=
  let json_start := strFind output lbrace
  let json_end := strRfind output rbrace + 1
  if json_start ≥ 0 ∧ json_end > json_start then
    json_loads (pySlice output json_start json_end)
  else none

/-- The response-recovery logic of `call_cursor_agent` (lines 124-154)
applied to the stripped stdout: parse the whole output; on a dict wrapper
with a string `result` field, extract the brace-to-brace substring of that
field (direct parse of the field only when no span exists); every decode
failure inside the wrapper branch falls back to `recoverFromRaw` on the raw
output; a non-string `result` field raises `AttributeError` on `.find`,
which the broad `except Exception` turns into `None`. -/
def recoverOutput (output : List Char) : Option Json :=
  match json_loads output with
  | none => recoverFromRaw output
  | some wrapper =>
    match wrapper with
    | .obj kvs =>
      match objLookup kvs resultKey with
      | none => some wrapper
      | some rv =>
        match rv with
        | .str result_text =>
          let json_start := strFind result_text lbrace
          let json_end := strRfind result_text rbrace + 1
          if json_start ≥ 0 ∧ json_end > json_start then
            match json_loads (pySlice result_text json_start json_end) with
            | some v => some v
            | none => recoverFromRaw output
          else
            match json_loads result_text with
            | some v => some v
            | none => recoverFromRaw output
        | _ => none
    | _ => some wrapper

/-- `call_cursor_agent`: invoke the external agent once (its behavior is the
oracle argument), return the recovered JSON payload or `None`. All three
exceptional terminations and every non-zero exit code yield `None`; on exit
code 0 the stripped stdout goes through recovery. -/
def call_cursor_agent : AgentBehavior → Option Json
  | .timeoutExpired => none
  | .fileNotFound => none
  | .otherException => none
  | .completed rc out _stderr =>
    if rc ≠ 0 then none
    else recoverOutput (pyStrip out.data)

/-- A captured prompt record (the fields `format_prompts_for_analysis`
reads, plus the project path carried by the surrounding pipeline). -/
structure PromptRecord where
  prompt_text : String
  timestamp : String
  user_action : String
  project_path : Option String

/-- One labeled block of the formatted transcript (`i` is the 1-based
sequence index): prompt text truncated to 500 characters, timestamp, and an
action tag when `user_action` is non-empty. -/
def promptBlock (i : Nat) (p : PromptRecord) : String :=
  let prompt_text := p.prompt_text.take 500
  let entry := "Prompt " ++ toString i ++ " (" ++ p.timestamp ++ ")"
  let entry := if p.user_action ≠ "" then entry ++ " [Action: " ++ p.user_action ++ "]" else entry
  entry ++ ":\n" ++ prompt_text ++ "\n"

/-- The omission-summary line appended when records were truncated. -/
def omissionLine (omitted : Nat) : String :=
  "\n... and " ++ toString omitted ++ " more prompts"

/-- The list of lines joined by `format_prompts_for_analysis`: one block per
record of the first `max_prompts` records, plus the omission summary when
the input is longer than `max_prompts`. -/
def formattedEntries (prompts : List PromptRecord) (max_prompts : Nat) : List String :=
  let prompts_to_analyze := prompts.take max_prompts
  let formatted := prompts_to_analyze.enum.map (fun ip => promptBlock (ip.1 + 1) ip.2)
  if prompts.length > max_prompts then
    formatted ++ [omissionLine (prompts.length - max_prompts)]
  else formatted

/-- `format_prompts_for_analysis` from the source: the blocks (and possible
summary) joined with newlines. -/
def format_prompts_for_analysis (prompts : List PromptRecord) (max_prompts : Nat) : String :=
  String.intercalate "\n" (formattedEntries prompts max_prompts)

/-- Truthiness of the optional project path (`and project_path`). -/
def pathTruthy : Option String → Bool
  | none => false
  | some p => p != ""

/-- `generate_recommendations_prompt` from the source: the fixed instruction
template around the formatted transcript, with scope-specific framing. -/
def generate_recommendations_prompt (prompts : List PromptRecord) (scope : String)
    (project_path : Option String) : String :=
  let formatted_prompts := format_prompts_for_analysis prompts 50
  let scope_context :=
    if scope = "project" && pathTruthy project_path then
      "\n\nThese prompts are from the project: " ++ project_path.getD ""
    else if scope = "global" then
      "\n\nThese prompts span multiple projects. Look for patterns that would benefit from global rules or commands."
    else ""
  "Analyze these prompts from a coding session and identify patterns that would benefit from Cursor rules or commands." ++
  scope_context ++ "\n\n" ++ formatted_prompts ++
  "\n\nFor each pattern you identify, provide:\n1. Type: Either \"Rule\" (for persistent guidance/instructions) or \"Command\" (for actions to invoke)\n2. Name: A descriptive name for the rule/command\n3. Content: The complete rule or command content in proper format\n4. Reasoning: Why this pattern warrants automation\n\nFormat your response as JSON with this structure:\n\x7b\n  \"recommendations\": [\n    \x7b\n      \"type\": \"Rule\" or \"Command\",\n      \"name\": \"descriptive name\",\n      \"content\": \"full rule/command content\",\n      \"reasoning\": \"explanation\"\n    \x7d\n  ]\n\x7d\n\nFocus on patterns that:\n- Are repeated frequently\n- Represent coding style preferences\n- Define workflows that could be automated\n- Capture domain-specific conventions\n- Would benefit from being persistent or reusable\n\nReturn only valid JSON, no additional text before or after."

/-- The cross-project instruction template (lines 234-264 of the source),
around the enumerated project summary and the formatted transcript. -/
def crossProjectPrompt (project_list formatted_prompts : String) : String :=
  "Analyze these prompts from multiple projects and identify patterns that appear across projects. These should be global rules or commands.\n\nProjects analyzed:\n" ++
  project_list ++ "\n\n" ++ formatted_prompts ++
  "\n\nFor each cross-project pattern you identify, provide:\n1. Type: Either \"Rule\" (for persistent guidance/instructions) or \"Command\" (for actions to invoke)\n2. Name: A descriptive name for the rule/command\n3. Content: The complete rule or command content in proper format\n4. Reasoning: Why this pattern warrants global automation\n\nFormat your response as JSON with this structure:\n\x7b\n  \"recommendations\": [\n    \x7b\n      \"type\": \"Rule\" or \"Command\",\n      \"name\": \"descriptive name\",\n      \"content\": \"full rule/command content\",\n      \"reasoning\": \"explanation\"\n    \x7d\n  ]\n\x7d\n\nFocus on patterns that appear consistently across multiple projects, such as:\n- Coding style preferences used everywhere\n- Common workflows that span projects\n- Universal conventions or best practices\n\nReturn only valid JSON, no additional text before or after."

/-- `analyze_project_prompts`: empty input short-circuits; otherwise build
the request, invoke the agent once (the oracle maps each request string to
the behavior of that one subprocess call), and on a truthy response tag
every recommendation with `scope="project"` and the supplied path. The
second component counts agent invocations; a `.error` result is a Python
exception escaping the function. -/
def analyze_project_prompts (agent : String → AgentBehavior)
    (prompts : List PromptRecord) (project_path : Option String) :
    Except PyErr Json × Nat :=
  if prompts.isEmpty then (.ok (.arr .nil), 0)
  else
    let prompt_text := generate_recommendations_prompt prompts "project" project_path
    match call_cursor_agent (agent prompt_text) with
    | none => (.ok (.arr .nil), 1)
    | some response =>
      if pyFalsy response then (.ok (.arr .nil), 1)
      else
        ((pyDictGet response recommendationsKey (.arr .nil)).bind
          (tagRecommendations (.str "project".data) (optPathJson project_path)), 1)

/-- `analyze_cross_project_patterns`: proceed only when the mapping has at
least two entries; sample the first 10 records of every project; a fully
empty sample short-circuits; otherwise build the cross-project request,
invoke once, and tag every recommendation with `scope="global"` and a null
path. Second component counts agent invocations. -/
def analyze_cross_project_patterns (agent : String → AgentBehavior)
    (prompts_by_project : List (String × List PromptRecord)) :
    Except PyErr Json × Nat :=
  if prompts_by_project.length < 2 then (.ok (.arr .nil), 0)
  else
    let all_prompts := (prompts_by_project.map (fun pr => pr.2.take 10)).flatten
    let project_summary :=
      prompts_by_project.map (fun pr => pr.1 ++ ": " ++ toString pr.2.length ++ " prompts")
    if all_prompts.isEmpty then (.ok (.arr .nil), 0)
    else
      let formatted_prompts := format_prompts_for_analysis all_prompts 50
      let project_list := String.intercalate "\n" project_summary
      let prompt := crossProjectPrompt project_list formatted_prompts
      match call_cursor_agent (agent prompt) with
      | none => (.ok (.arr .nil), 1)
      | some response =>
        if pyFalsy response then (.ok (.arr .nil), 1)
        else
          ((pyDictGet response recommendationsKey (.arr .nil)).bind
            (tagRecommendations (.str "global".data) Json.null), 1)

/-- True when the input does not start with a decimal digit (the only
context condition the number parser needs for unambiguous parsing). -/
def noDigitHead : List Char → Bool
  | [] => true
  | c :: _ => !isDigitC c

mutual

/-- Parser fuel sufficient for a value (dominates the number of
`parseValue`/`parseItems`/`parseMembers` entries its parse performs). -/
def jsonFuel : Json → Nat
  | .arr xs => 1 + jsonListFuel xs
  | .obj kvs => 1 + jsonObjFuel kvs
  | _ => 1
termination_by structural v => v

/-- Fuel for a non-empty run of array elements. -/
def jsonListFuel : JsonList → Nat
  | .nil => 0
  | .cons h t => 1 + jsonFuel h + jsonListFuel t
termination_by structural t => t

/-- Fuel for a non-empty run of object members. -/
def jsonObjFuel : JsonObj → Nat
  | .nil => 0
  | .cons _ v t => 1 + jsonFuel v + jsonObjFuel t
termination_by structural t => t

end

/-- View of an embedded JSON array as a Lean list (used to quantify over
the recommendations of a response). -/
def JsonList.toList : JsonList → List Json
  | .nil => []
  | .cons h t => h :: JsonList.toList t

/-- Two subprocess outcomes that agree except possibly on captured stderr
(used to state that diagnostics never reach a recommendation). -/
def sameExceptStderr : AgentBehavior → AgentBehavior → Prop
  | .completed rc1 out1 _, .completed rc2 out2 _ => rc1 = rc2 ∧ out1 = out2
  | b1, b2 => b1 = b2

/-- A concrete prompt record used by counterexamples and witnesses. -/
def sampleRecord : PromptRecord :=
  { prompt_text := "always write docstrings"
    timestamp := "2024-01-01T00:00:00Z"
    user_action := "accepted"
    project_path := some "A" }

/-- An agent oracle that completes successfully with the given stdout,
regardless of the request text. -/
def agentReturning (stdout : String) : String → AgentBehavior :=
  fun _ => .completed 0 stdout ""

/-- Digit characters are exactly the ten concrete characters, so facts about
them reduce to case checks. -/
theorem isDigitC_cases (c : Char) (h : isDigitC c = true) :
    c = '0' ∨ c = '1' ∨ c = '2' ∨ c = '3' ∨ c = '4' ∨
    c = '5' ∨ c = '6' ∨ c = '7' ∨ c = '8' ∨ c = '9' := by
  simp only [isDigitC, Bool.or_eq_true, decide_eq_true_eq] at h
  tauto

/-- A digit character is not whitespace and differs from every structural
character the parser dispatches on. -/
theorem digit_props (c : Char) (h : isDigitC c = true) :
    isWs c = false ∧ c ≠ '-' ∧ c ≠ quot ∧ c ≠ lbrace ∧ c ≠ lbrack ∧
    c ≠ 'n' ∧ c ≠ 't' ∧ c ≠ 'f' ∧ c ≠ rbrack ∧ c ≠ rbrace := by
  rcases isDigitC_cases c h with h'|h'|h'|h'|h'|h'|h'|h'|h'|h' <;> subst h' <;> decide

/-- `Nat.digitChar` of a digit value is a digit character. -/
theorem isDigitC_digitChar (d : Nat) (hd : d < 10) :
    isDigitC (Nat.digitChar d) = true := by
  interval_cases d <;> decide

/-- `digitVal` inverts `Nat.digitChar` on digit values. -/
theorem digitVal_digitChar (d : Nat) (hd : d < 10) :
    digitVal (Nat.digitChar d) = d := by
  interval_cases d <;> decide

/-- The decimal rendering of a natural number is never empty. -/
theorem natToChars_ne_nil (n : Nat) : natToChars n ≠ [] := by
  unfold natToChars
  split
  · simp
  · simp only [ne_eq, List.reverse_eq_nil_iff, List.map_eq_nil_iff]
    exact Nat.digits_ne_nil_iff_ne_zero.mpr (by assumption)

/-- Every character of the decimal rendering is a digit. -/
theorem natToChars_digits (n : Nat) : ∀ c ∈ natToChars n, isDigitC c = true := by
  intro c hc
  unfold natToChars at hc
  split at hc
  · simp at hc; subst hc; decide
  · simp only [List.mem_reverse, List.mem_map] at hc
    obtain ⟨d, hd, rfl⟩ := hc
    exact isDigitC_digitChar d (Nat.digits_lt_base (by norm_num) hd)

/-- `parseDigits` consumes exactly a leading block of digits. -/
theorem parseDigits_append (ds : List Char) (rest : List Char) (acc : Nat)
    (hds : ∀ c ∈ ds, isDigitC c = true) (hrest : noDigitHead rest = true) :
    parseDigits (ds ++ rest) acc =
      (ds.foldl (fun a c => a * 10 + digitVal c) acc, rest) := by
  induction ds generalizing acc with
  | nil =>
    simp only [List.nil_append, List.foldl_nil]
    cases rest with
    | nil => rfl
    | cons c t =>
      simp only [noDigitHead, Bool.not_eq_true'] at hrest
      simp [parseDigits, hrest]
  | cons d ds ih =>
    have hd := hds d (by simp)
    simp only [List.cons_append, parseDigits, hd, if_true, List.foldl_cons]
    exact ih _ (fun c hc => hds c (by simp [hc]))

/-- Folding the digit values of the decimal rendering recovers the number. -/
theorem foldl_natToChars (n : Nat) :
    (natToChars n).foldl (fun a c => a * 10 + digitVal c) 0 = n := by
  unfold natToChars
  split
  · subst ‹n = 0›; decide
  · rw [List.foldl_reverse, List.foldr_map]
    have key : ∀ l : List Nat, (∀ d ∈ l, d < 10) →
        l.foldr (fun d a => a * 10 + digitVal (Nat.digitChar d)) 0 =
          Nat.ofDigits 10 l := by
      intro l
      induction l with
      | nil => intro _; simp [Nat.ofDigits]
      | cons d t iht =>
        intro hl
        have hd : d < 10 := hl d (by simp)
        simp only [List.foldr_cons, Nat.ofDigits_cons,
          iht (fun x hx => hl x (by simp [hx])), digitVal_digitChar d hd]
        ring
    rw [key _ (fun d hd => Nat.digits_lt_base (by norm_num) hd)]
    exact_mod_cast Nat.ofDigits_digits 10 n

/-- `parseNumber` inverts `intToChars`, leaving any digit-free rest. -/
theorem parseNumber_intToChars (n : Int) (rest : List Char)
    (hrest : noDigitHead rest = true) :
    parseNumber (intToChars n ++ rest) = some (n, rest) := by
  have hshape : ∃ d ds, natToChars n.natAbs = d :: ds := by
    cases hnc : natToChars n.natAbs with
    | nil => exact absurd hnc (natToChars_ne_nil _)
    | cons d ds => exact ⟨d, ds, rfl⟩
  obtain ⟨d, ds, hnc⟩ := hshape
  have hdigits := natToChars_digits n.natAbs
  have hd : isDigitC d = true := hdigits d (by rw [hnc]; simp)
  have hparse : parseDigits (d :: (ds ++ rest)) 0 = (n.natAbs, rest) := by
    have h1 := parseDigits_append (d :: ds) rest 0
      (fun c hc => hdigits c (by rw [hnc]; exact hc)) hrest
    rw [List.cons_append] at h1
    rw [h1, ← hnc, foldl_natToChars]
  by_cases hneg : n < 0
  · have habs : -((n.natAbs : Nat) : Int) = n := by omega
    rw [intToChars, if_pos hneg, hnc]
    rw [show ('-' :: (d :: ds)) ++ rest = '-' :: (d :: (ds ++ rest)) by simp]
    simp only [parseNumber, if_pos rfl, hd, if_true, hparse, habs]
  · have habs : ((n.natAbs : Nat) : Int) = n := by omega
    have hne : d ≠ '-' := (digit_props d hd).2.1
    rw [intToChars, if_neg hneg, hnc, List.cons_append]
    simp only [parseNumber, hne, if_false, hd, if_true, hparse, habs]

/-- `parseStringBody` inverts `escapeStr`, consuming the closing quote. -/
theorem parseStringBody_escape (s rest : List Char) :
    parseStringBody (escapeStr s ++ (quot :: rest)) = some (s, rest) := by
  induction s with
  | nil => simp [escapeStr, parseStringBody]
  | cons c t ih =>
    show parseStringBody ((escapeChar c ++ escapeStr t) ++ (quot :: rest)) = _
    rw [List.append_assoc]
    by_cases h1 : c = quot
    · subst h1
      simp +decide [escapeChar, parseStringBody, parseEscapeSeq, unescapeChar, ih]
    · by_cases h2 : c = backslash
      · subst h2
        simp +decide [escapeChar, parseStringBody, parseEscapeSeq, unescapeChar, ih]
      · by_cases h3 : c = '\n'
        · subst h3
          simp +decide [escapeChar, parseStringBody, parseEscapeSeq, unescapeChar, ih]
        · by_cases h4 : c = '\t'
          · subst h4
            simp +decide [escapeChar, parseStringBody, parseEscapeSeq, unescapeChar, ih]
          · by_cases h5 : c = '\r'
            · subst h5
              simp +decide [escapeChar, parseStringBody, parseEscapeSeq, unescapeChar, ih]
            · simp [escapeChar, h1, h2, h3, h4, h5, parseStringBody, ih]

/-- `skipWs` is the identity on input starting with non-whitespace. -/
theorem skipWs_cons (c : Char) (t : List Char) (h : isWs c = false) :
    skipWs (c :: t) = c :: t := by
  simp [skipWs, h]

/-- Every serialized value starts with a non-whitespace character that is
neither `]` nor `}`. -/
theorem serializeJson_headChar (v : Json) :
    ∃ c t, serializeJson v = c :: t ∧ isWs c = false ∧ c ≠ rbrack ∧ c ≠ rbrace := by
  cases v with
  | num n =>
    show ∃ c t, intToChars n = c :: t ∧ _
    by_cases hneg : n < 0
    · refine ⟨'-', _, by rw [intToChars, if_pos hneg], ?_, ?_, ?_⟩ <;> decide
    · obtain ⟨d, ds, hnc⟩ : ∃ d ds, natToChars n.natAbs = d :: ds := by
        cases hnc : natToChars n.natAbs with
        | nil => exact absurd hnc (natToChars_ne_nil _)
        | cons d ds => exact ⟨d, ds, rfl⟩
      have hd : isDigitC d = true := natToChars_digits n.natAbs d (by rw [hnc]; simp)
      obtain ⟨hws, _, _, _, _, _, _, _, hrk, hrc⟩ := digit_props d hd
      exact ⟨d, ds, by rw [intToChars, if_neg hneg, hnc], hws, hrk, hrc⟩
  | bool b => cases b <;> refine ⟨_, _, rfl, ?_, ?_, ?_⟩ <;> decide
  | arr xs => cases xs <;> refine ⟨lbrack, _, rfl, ?_, ?_, ?_⟩ <;> decide
  | obj kvs => cases kvs <;> refine ⟨lbrace, _, rfl, ?_, ?_, ?_⟩ <;> decide
  | null => refine ⟨'n', _, rfl, ?_, ?_, ?_⟩ <;> decide
  | str s => refine ⟨quot, _, rfl, ?_, ?_, ?_⟩ <;> decide

/-- Fuel bounds are positive on values. -/
theorem jsonFuel_pos (v : Json) : 1 ≤ jsonFuel v := by
  cases v <;> simp [jsonFuel]

/-- `parseValue` at a quote dispatches to the string branch. -/
theorem parseValue_at_quot (fuel : Nat) (t : List Char) :
    parseValue (fuel + 1) (quot :: t) =
      match parseStringBody t with
      | some (b, r) => some (Json.str b, r)
      | none => none := rfl

/-- `parseValue` at `{` dispatches to the object branch. -/
theorem parseValue_at_lbrace (fuel : Nat) (t : List Char) :
    parseValue (fuel + 1) (lbrace :: t) =
      match skipWs t with
      | [] => none
      | c2 :: t2 =>
        if c2 = rbrace then some (Json.obj .nil, t2)
        else
          match parseMembers fuel (c2 :: t2) with
          | some (kvs, r) => some (Json.obj kvs, r)
          | none => none := rfl

/-- `parseValue` at `[` dispatches to the array branch. -/
theorem parseValue_at_lbrack (fuel : Nat) (t : List Char) :
    parseValue (fuel + 1) (lbrack :: t) =
      match skipWs t with
      | [] => none
      | c2 :: t2 =>
        if c2 = rbrack then some (Json.arr .nil, t2)
        else
          match parseItems fuel (c2 :: t2) with
          | some (xs, r) => some (Json.arr xs, r)
          | none => none := rfl

/-- `parseValue` at a sign or digit dispatches to the number branch. -/
theorem parseValue_at_num (fuel : Nat) (c : Char) (t : List Char)
    (hws : isWs c = false) (hbr : (c = '-' || isDigitC c) = true) :
    parseValue (fuel + 1) (c :: t) =
      match parseNumber (c :: t) with
      | some (n, r) => some (Json.num n, r)
      | none => none := by
  simp only [parseValue, skipWs_cons c t hws, hbr, if_true]

/-- The serialized tail of an array run starts with `,` or `]`. -/
theorem noDigitHead_itemsTail (t : JsonList) (rest : List Char) :
    noDigitHead (serializeItemsTail t ++ rest) = true := by
  cases t <;> simp +decide [serializeItemsTail, noDigitHead, isDigitC]

/-- The serialized tail of an object run starts with `,` or `}`. -/
theorem noDigitHead_membersTail (t : JsonObj) (rest : List Char) :
    noDigitHead (serializeMembersTail t ++ rest) = true := by
  cases t <;> simp +decide [serializeMembersTail, noDigitHead, isDigitC]

/-- Main roundtrip, proved for all three parser entry points simultaneously
by induction on fuel: parsing a serialized value consumes exactly it. -/
theorem parse_serialize_all (fuel : Nat) :
    (∀ (v : Json) (rest : List Char), jsonFuel v ≤ fuel → noDigitHead rest = true →
      parseValue fuel (serializeJson v ++ rest) = some (v, rest)) ∧
    (∀ (h : Json) (t : JsonList) (rest : List Char),
      jsonListFuel (.cons h t) ≤ fuel → noDigitHead rest = true →
      parseItems fuel (serializeJson h ++ (serializeItemsTail t ++ rest)) =
        some (.cons h t, rest)) ∧
    (∀ (k : List Char) (v : Json) (t : JsonObj) (rest : List Char),
      jsonObjFuel (.cons k v t) ≤ fuel → noDigitHead rest = true →
      parseMembers fuel (serializeMember k v ++ (serializeMembersTail t ++ rest)) =
        some (.cons k v t, rest)) := by
  induction fuel with
  | zero =>
    refine ⟨fun v rest hf _ => absurd hf ?_, fun h t rest hf _ => absurd hf ?_,
            fun k v t rest hf _ => absurd hf ?_⟩
    · have := jsonFuel_pos v; omega
    · simp only [jsonListFuel]; omega
    · simp only [jsonObjFuel]; omega
  | succ fuel ih =>
    obtain ⟨ihV, ihI, ihM⟩ := ih
    refine ⟨?_, ?_, ?_⟩
    · -- values
      intro v rest hfuel hrest
      cases v with
      | null => rfl
      | bool b => cases b <;> rfl
      | num n =>
        obtain ⟨c, t2, heq, hws, hbr⟩ :
            ∃ c t2, intToChars n ++ rest = c :: t2 ∧ isWs c = false ∧
              (c = '-' || isDigitC c) = true := by
          by_cases hneg : n < 0
          · exact ⟨'-', natToChars n.natAbs ++ rest,
              by rw [intToChars, if_pos hneg, List.cons_append], by decide, by decide⟩
          · obtain ⟨d, ds, hnc⟩ : ∃ d ds, natToChars n.natAbs = d :: ds := by
              cases hnc : natToChars n.natAbs with
              | nil => exact absurd hnc (natToChars_ne_nil _)
              | cons d ds => exact ⟨d, ds, rfl⟩
            have hd : isDigitC d = true := natToChars_digits n.natAbs d (by rw [hnc]; simp)
            exact ⟨d, ds ++ rest, by rw [intToChars, if_neg hneg, hnc, List.cons_append],
              (digit_props d hd).1, by simp [hd]⟩
        show parseValue (fuel + 1) (intToChars n ++ rest) = some (.num n, rest)
        rw [heq, parseValue_at_num fuel c t2 hws hbr, ← heq,
          parseNumber_intToChars n rest hrest]
      | str s =>
        have hshape : serializeJson (.str s) ++ rest =
            quot :: (escapeStr s ++ (quot :: rest)) := by
          show (quot :: (escapeStr s ++ [quot])) ++ rest = _
          simp
        rw [hshape, parseValue_at_quot, parseStringBody_escape]
      | arr xs =>
        cases xs with
        | nil => rfl
        | cons h t =>
          have hb : jsonListFuel (JsonList.cons h t) ≤ fuel := by
            simp only [jsonFuel] at hfuel; omega
          obtain ⟨hc, ht, hheq, hws, hnrk, _⟩ := serializeJson_headChar h
          have hshape : serializeJson (.arr (.cons h t)) ++ rest =
              lbrack :: (serializeJson h ++ (serializeItemsTail t ++ rest)) := by
            show (lbrack :: (serializeJson h ++ serializeItemsTail t)) ++ rest = _
            simp
          have hsk : skipWs (serializeJson h ++ (serializeItemsTail t ++ rest)) =
              hc :: (ht ++ (serializeItemsTail t ++ rest)) := by
            rw [hheq, List.cons_append, skipWs_cons _ _ hws]
          have hback : hc :: (ht ++ (serializeItemsTail t ++ rest)) =
              serializeJson h ++ (serializeItemsTail t ++ rest) := by
            rw [hheq, List.cons_append]
          rw [hshape, parseValue_at_lbrack, hsk]
          simp only [if_neg hnrk]
          rw [hback, ihI h t rest hb hrest]
      | obj kvs =>
        cases kvs with
        | nil => rfl
        | cons k v t =>
          have hb : jsonObjFuel (JsonObj.cons k v t) ≤ fuel := by
            simp only [jsonFuel] at hfuel; omega
          have hshape : serializeJson (.obj (.cons k v t)) ++ rest =
              lbrace :: (serializeMember k v ++ (serializeMembersTail t ++ rest)) := by
            show (lbrace :: ((quot :: (escapeStr k ++ [quot] ++ (':' :: serializeJson v))) ++
              serializeMembersTail t)) ++ rest = _
            simp [serializeMember]
          have hsk : skipWs (serializeMember k v ++ (serializeMembersTail t ++ rest)) =
              quot :: ((escapeStr k ++ [quot] ++ (':' :: serializeJson v)) ++
                (serializeMembersTail t ++ rest)) := by
            rw [serializeMember, List.cons_append, skipWs_cons _ _ (by decide)]
          have hback : quot :: ((escapeStr k ++ [quot] ++ (':' :: serializeJson v)) ++
              (serializeMembersTail t ++ rest)) =
              serializeMember k v ++ (serializeMembersTail t ++ rest) := by
            rw [serializeMember, List.cons_append]
          rw [hshape, parseValue_at_lbrace, hsk]
          simp only [if_neg (show quot ≠ rbrace by decide)]
          rw [hback, ihM k v t rest hb hrest]
    · -- array element runs
      intro h t rest hfuel hrest
      have hbv : jsonFuel h ≤ fuel := by
        simp only [jsonListFuel] at hfuel; omega
      have hv := ihV h (serializeItemsTail t ++ rest) hbv (noDigitHead_itemsTail t rest)
      show parseItems (fuel + 1) (serializeJson h ++ (serializeItemsTail t ++ rest)) = _
      rw [parseItems, hv]
      cases t with
      | nil =>
        show (match skipWs (rbrack :: rest) with
          | [] => none
          | c :: t =>
            if c = ',' then
              match parseItems fuel t with
              | some (xs, r2) => some (JsonList.cons h xs, r2)
              | none => none
            else if c = rbrack then some (JsonList.cons h .nil, t)
            else none) = some (JsonList.cons h .nil, rest)
        rw [skipWs_cons _ _ (by decide)]
        simp +decide
      | cons h2 t2 =>
        have hb2 : jsonListFuel (JsonList.cons h2 t2) ≤ fuel := by
          simp only [jsonListFuel] at hfuel ⊢; omega
        show (match skipWs ((',' :: (serializeJson h2 ++ serializeItemsTail t2)) ++ rest) with
          | [] => none
          | c :: t =>
            if c = ',' then
              match parseItems fuel t with
              | some (xs, r2) => some (JsonList.cons h xs, r2)
              | none => none
            else if c = rbrack then some (JsonList.cons h JsonList.nil, t)
            else none) = some (JsonList.cons h (JsonList.cons h2 t2), rest)
        rw [List.cons_append, skipWs_cons _ _ (by decide)]
        have hassoc : (serializeJson h2 ++ serializeItemsTail t2) ++ rest =
            serializeJson h2 ++ (serializeItemsTail t2 ++ rest) := by simp
        simp only [if_pos rfl, hassoc, ihI h2 t2 rest hb2 hrest]
        simp
    · -- object member runs
      intro k v t rest hfuel hrest
      have hbv : jsonFuel v ≤ fuel := by
        simp only [jsonObjFuel] at hfuel; omega
      have hv := ihV v (serializeMembersTail t ++ rest) hbv (noDigitHead_membersTail t rest)
      have hshape : serializeMember k v ++ (serializeMembersTail t ++ rest) =
          quot :: (escapeStr k ++ (quot :: (':' :: (serializeJson v ++
            (serializeMembersTail t ++ rest))))) := by
        rw [serializeMember]
        simp
      rw [hshape, parseMembers]
      rw [show skipWs (quot :: (escapeStr k ++ (quot :: (':' :: (serializeJson v ++
        (serializeMembersTail t ++ rest)))))) = quot :: (escapeStr k ++ (quot :: (':' ::
        (serializeJson v ++ (serializeMembersTail t ++ rest))))) from
        skipWs_cons _ _ (by decide)]
      simp only [if_pos rfl, parseStringBody_escape]
      rw [show skipWs (':' :: (serializeJson v ++ (serializeMembersTail t ++ rest))) =
        ':' :: (serializeJson v ++ (serializeMembersTail t ++ rest)) from
        skipWs_cons _ _ (by decide)]
      simp only [if_pos rfl, hv]
      cases t with
      | nil =>
        rw [show serializeMembersTail JsonObj.nil ++ rest = rbrace :: rest from rfl]
        rw [skipWs_cons _ _ (by decide)]
        simp +decide
      | cons k2 v2 t2 =>
        have hb2 : jsonObjFuel (JsonObj.cons k2 v2 t2) ≤ fuel := by
          simp only [jsonObjFuel] at hfuel ⊢; omega
        have hstep : serializeMembersTail (JsonObj.cons k2 v2 t2) ++ rest =
            ',' :: (serializeMember k2 v2 ++ (serializeMembersTail t2 ++ rest)) := by
          show (',' :: ((quot :: (escapeStr k2 ++ [quot] ++ (':' :: serializeJson v2))) ++
            serializeMembersTail t2)) ++ rest = _
          simp [serializeMember]
        rw [hstep, skipWs_cons _ _ (by decide)]
        simp only [if_pos rfl, ihM k2 v2 t2 rest hb2 hrest]
        simp

mutual

/-- The fuel bound of a value is dominated by its serialized length. -/
theorem jsonFuel_le_length : ∀ v : Json, jsonFuel v ≤ (serializeJson v).length
  | .null => by simp [jsonFuel, serializeJson]
  | .bool b => by cases b <;> simp [jsonFuel, serializeJson]
  | .num n => by
    simp only [jsonFuel, serializeJson, intToChars]
    split
    · simp
    · have h2 : 0 < (natToChars n.natAbs).length :=
        List.length_pos.mpr (natToChars_ne_nil _)
      omega
  | .str s => by simp [jsonFuel, serializeJson]
  | .arr .nil => by simp [jsonFuel, jsonListFuel, serializeJson]
  | .arr (.cons h t) => by
    have h1 := jsonFuel_le_length h
    have h2 := jsonListFuelTail_le t
    simp only [jsonFuel, jsonListFuel, serializeJson, List.length_cons,
      List.length_append]
    omega
  | .obj .nil => by simp [jsonFuel, jsonObjFuel, serializeJson]
  | .obj (.cons k v t) => by
    have h1 := jsonFuel_le_length v
    have h2 := jsonObjFuelTail_le t
    simp only [jsonFuel, jsonObjFuel, serializeJson, List.length_cons,
      List.length_append]
    omega
termination_by structural v => v

/-- The fuel bound of remaining array elements is below the tail length. -/
theorem jsonListFuelTail_le : ∀ t : JsonList,
    jsonListFuel t + 1 ≤ (serializeItemsTail t).length
  | .nil => by simp [jsonListFuel, serializeItemsTail]
  | .cons h t => by
    have h1 := jsonFuel_le_length h
    have h2 := jsonListFuelTail_le t
    simp only [jsonListFuel, serializeItemsTail, List.length_cons, List.length_append]
    omega
termination_by structural t => t

/-- The fuel bound of remaining object members is below the tail length. -/
theorem jsonObjFuelTail_le : ∀ t : JsonObj,
    jsonObjFuel t + 1 ≤ (serializeMembersTail t).length
  | .nil => by simp [jsonObjFuel, serializeMembersTail]
  | .cons k v t => by
    have h1 := jsonFuel_le_length v
    have h2 := jsonObjFuelTail_le t
    simp only [jsonObjFuel, serializeMembersTail, List.length_cons, List.length_append]
    omega
termination_by structural t => t

end

/-- Top-level roundtrip: the model of `json.loads` inverts the model of
`json.dumps` on every JSON value. -/
theorem json_loads_serialize (v : Json) : json_loads (serializeJson v) = some v := by
  have hfuel : jsonFuel v ≤ (serializeJson v).length + 1 :=
    le_trans (jsonFuel_le_length v) (by omega)
  have h := (parse_serialize_all ((serializeJson v).length + 1)).1 v [] hfuel rfl
  rw [List.append_nil] at h
  rw [json_loads, h]
  rfl

/-- `str.find` at a matching head is 0. -/
theorem strFind_head (c : Char) (t : List Char) : strFind (c :: t) c = 0 := by
  simp [strFind, strFindAux]

/-- `str.find` of an absent character is `-1`. -/
theorem strFind_not_mem (s : List Char) (c : Char) (h : c ∉ s) : strFind s c = -1 := by
  have aux : ∀ (s : List Char) (i : Nat), c ∉ s → strFindAux s c i = -1 := by
    intro s
    induction s with
    | nil => intro i _; rfl
    | cons x t ih =>
      intro i hx
      have hne : x ≠ c := fun hxc => hx (by simp [hxc])
      simp only [strFindAux, hne, if_false]
      exact ih (i + 1) (fun hc => hx (by simp [hc]))
  exact aux s 0 h

/-- `str.rfind` of the final character is the last index. -/
theorem strRfind_concat (s : List Char) (c : Char) :
    strRfind (s ++ [c]) c = s.length := by
  induction s with
  | nil => simp [strRfind]
  | cons x t ih =>
    show strRfind (x :: (t ++ [c])) c = (t.length + 1 : Nat)
    simp only [strRfind, ih]
    have : (t.length : Int) ≥ 0 := by omega
    simp [this]

/-- The full slice of a string is the string. -/
theorem pySlice_all (s : List Char) : pySlice s 0 s.length = s := by
  simp [pySlice]

/-- Every serialized object is brace-delimited. -/
theorem serializeMembersTail_concat : ∀ t : JsonObj,
    ∃ w, serializeMembersTail t = w ++ [rbrace]
  | .nil => ⟨[], rfl⟩
  | .cons k v t => by
    obtain ⟨w, hw⟩ := serializeMembersTail_concat t
    refine ⟨',' :: (serializeMember k v ++ w), ?_⟩
    simp [serializeMembersTail, serializeMember, hw]
termination_by structural t => t

/-- Shape of a serialized object: an opening brace, a body, a closing
brace. -/
theorem serializeJson_obj_shape (kvs : JsonObj) :
    ∃ u, serializeJson (Json.obj kvs) = lbrace :: (u ++ [rbrace]) := by
  cases kvs with
  | nil => exact ⟨[], rfl⟩
  | cons k v t =>
    obtain ⟨w, hw⟩ := serializeMembersTail_concat t
    refine ⟨serializeMember k v ++ w, ?_⟩
    show lbrace :: ((quot :: (escapeStr k ++ [quot] ++ (':' :: serializeJson v))) ++
      serializeMembersTail t) = _
    simp [serializeMember, hw]

/-- Stripping a serialized object is the identity (it is brace-delimited,
and braces are not whitespace). -/
theorem pyStrip_serialized_obj (kvs : JsonObj) :
    pyStrip (serializeJson (Json.obj kvs)) = serializeJson (Json.obj kvs) := by
  obtain ⟨u, hu⟩ := serializeJson_obj_shape kvs
  have hd : (serializeJson (Json.obj kvs)).dropWhile (isWs ·) =
      serializeJson (Json.obj kvs) := by
    rw [hu]
    simp +decide [List.dropWhile_cons]
  have hr : ((serializeJson (Json.obj kvs)).reverse).dropWhile (isWs ·) =
      (serializeJson (Json.obj kvs)).reverse := by
    rw [hu]
    simp +decide [List.dropWhile_cons]
  unfold pyStrip
  rw [hd, hr, List.reverse_reverse]

/-- The decode-failure fallback succeeds on any serialized object: the
brace span is the whole text, which parses back to the object. -/
theorem recoverFromRaw_serialized_obj (kvs : JsonObj) :
    recoverFromRaw (serializeJson (Json.obj kvs)) = some (Json.obj kvs) := by
  obtain ⟨u, hu⟩ := serializeJson_obj_shape kvs
  have hfind : strFind (serializeJson (Json.obj kvs)) lbrace = 0 := by
    rw [hu]; exact strFind_head _ _
  have hrfind : strRfind (serializeJson (Json.obj kvs)) rbrace =
      ((u.length + 1 : Nat) : Int) := by
    rw [hu, show lbrace :: (u ++ [rbrace]) = (lbrace :: u) ++ [rbrace] by simp,
      strRfind_concat]
    simp
  have hlen : (serializeJson (Json.obj kvs)).length = u.length + 2 := by
    rw [hu]; simp
  unfold recoverFromRaw
  rw [hfind, hrfind]
  rw [if_pos (by constructor <;> omega)]
  rw [show ((u.length + 1 : Nat) : Int) + 1 = ((serializeJson (Json.obj kvs)).length : Int) by
    rw [hlen]; push_cast; ring]
  rw [pySlice_all, json_loads_serialize]

/-- Behavior of recovery on an agent wrapper `{"result": cand}`: the
brace-to-brace substring of the candidate is tried first whenever a span
exists; the direct parse of the whole candidate is tried only when there is
no span; and when the chosen attempt fails to decode, the fallback re-parse
of the raw output returns the wrapper object itself. -/
theorem recoverOutput_wrapper (cand : List Char) :
    recoverOutput (serializeJson (Json.obj (.cons resultKey (.str cand) .nil))) =
      (if strFind cand lbrace ≥ 0 ∧ strRfind cand rbrace + 1 > strFind cand lbrace then
        match json_loads (pySlice cand (strFind cand lbrace) (strRfind cand rbrace + 1)) with
        | some v => some v
        | none => some (Json.obj (.cons resultKey (.str cand) .nil))
      else
        match json_loads cand with
        | some v => some v
        | none => some (Json.obj (.cons resultKey (.str cand) .nil))) := by
  have hW := json_loads_serialize (Json.obj (.cons resultKey (.str cand) .nil))
  have hF := recoverFromRaw_serialized_obj (.cons resultKey (.str cand) .nil)
  rw [recoverOutput, hW]
  show (match objLookup (.cons resultKey (.str cand) .nil) resultKey with
    | none => some (Json.obj (.cons resultKey (.str cand) .nil))
    | some rv =>
      match rv with
      | .str result_text =>
        if strFind result_text lbrace ≥ 0 ∧
            strRfind result_text rbrace + 1 > strFind result_text lbrace then
          match json_loads (pySlice result_text (strFind result_text lbrace)
              (strRfind result_text rbrace + 1)) with
          | some v => some v
          | none => recoverFromRaw (serializeJson (Json.obj (.cons resultKey (.str cand) .nil)))
        else
          match json_loads result_text with
          | some v => some v
          | none => recoverFromRaw (serializeJson (Json.obj (.cons resultKey (.str cand) .nil)))
      | _ => none) = _
  rw [show objLookup (.cons resultKey (.str cand) .nil) resultKey = some (.str cand) by
    simp [objLookup]]
  rw [hF]

/-- Looking up the key just set returns the value just assigned. -/
theorem objLookup_dictSet_self : ∀ (kvs : JsonObj) (k : List Char) (v : Json),
    objLookup (dictSet kvs k v) k = some v
  | .nil, k, v => by simp [dictSet, objLookup]
  | .cons k0 v0 t, k, v => by
    by_cases h : k0 = k
    · subst h; simp [dictSet, objLookup]
    · simp [dictSet, objLookup, h, objLookup_dictSet_self t k v]
termination_by structural kvs => kvs

/-- Setting one key leaves every other key unchanged. -/
theorem objLookup_dictSet_ne : ∀ (kvs : JsonObj) (k k2 : List Char) (v : Json),
    k ≠ k2 → objLookup (dictSet kvs k2 v) k = objLookup kvs k
  | .nil, k, k2, v => by
    intro hne
    have hne2 : ¬k2 = k := fun h => hne h.symm
    simp [dictSet, objLookup, hne2]
  | .cons k0 v0 t, k, k2, v => by
    intro hne
    by_cases h : k0 = k2
    · subst h
      have hne2 : ¬k0 = k := fun hh => hne hh.symm
      simp [dictSet, objLookup, hne2]
    · by_cases h2 : k0 = k
      · subst h2; simp [dictSet, objLookup, h]
      · simp [dictSet, objLookup, h, h2, objLookup_dictSet_ne t k k2 v hne]
termination_by structural kvs => kvs

/-- The key list of `scope` differs from that of `project_path`. -/
theorem scopeKey_ne_projectPathKey : scopeKey ≠ projectPathKey := by decide

/-- Scope tagging succeeds exactly on dicts and only rewrites the two scope
keys. -/
theorem tagOne_shape (sv pv : Json) (x r : Json) (h : tagOne sv pv x = .ok r) :
    ∃ kvs, x = Json.obj kvs ∧
      r = Json.obj (dictSet (dictSet kvs scopeKey sv) projectPathKey pv) := by
  cases x with
  | obj kvs =>
    refine ⟨kvs, rfl, ?_⟩
    simp only [tagOne] at h
    cases h
    rfl
  | null => simp [tagOne] at h
  | bool b => simp [tagOne] at h
  | num n => simp [tagOne] at h
  | str s => simp [tagOne] at h
  | arr xs => simp [tagOne] at h

/-- The lookups of the two tagged keys after tagging. -/
theorem tagged_lookups (kvs : JsonObj) (sv pv : Json) :
    objLookup (dictSet (dictSet kvs scopeKey sv) projectPathKey pv) scopeKey = some sv ∧
    objLookup (dictSet (dictSet kvs scopeKey sv) projectPathKey pv) projectPathKey = some pv := by
  constructor
  · rw [objLookup_dictSet_ne _ scopeKey projectPathKey pv scopeKey_ne_projectPathKey]
    exact objLookup_dictSet_self _ _ _
  · exact objLookup_dictSet_self _ _ _

/-- Every element of a successfully tagged list is the tagging of some
element of the input list. -/
theorem tagList_mem (sv pv : Json) : ∀ (xs ys : JsonList), tagList sv pv xs = .ok ys →
    ∀ r ∈ ys.toList, ∃ x, tagOne sv pv x = .ok r
  | .nil, ys => by
    intro h r hr
    simp only [tagList] at h
    cases h
    simp [JsonList.toList] at hr
  | .cons x xs, ys => by
    intro h r hr
    simp only [tagList] at h
    cases hx : tagOne sv pv x with
    | error e => rw [hx] at h; exact Except.noConfusion h
    | ok r2 =>
      rw [hx] at h
      cases hxs : tagList sv pv xs with
      | error e => rw [hxs] at h; exact Except.noConfusion h
      | ok ys2 =>
        rw [hxs] at h
        have h2 : JsonList.cons r2 ys2 = ys := by injection h
        subst h2
        simp only [JsonList.toList, List.mem_cons] at hr
        rcases hr with hr | hr
        · exact ⟨x, by rw [hx, hr]⟩
        · exact tagList_mem sv pv xs ys2 hxs r hr
termination_by structural xs => xs

/-- A tagged-recommendations result that is an array consists of tagged
dicts only. -/
theorem tagRecommendations_arr (sv pv : Json) (x : Json) (recs : JsonList)
    (h : tagRecommendations sv pv x = .ok (Json.arr recs)) :
    ∀ r ∈ recs.toList, ∃ kvs,
      r = Json.obj (dictSet (dictSet kvs scopeKey sv) projectPathKey pv) := by
  intro r hr
  cases x with
  | arr xs =>
    simp only [tagRecommendations] at h
    cases htl : tagList sv pv xs with
    | error e => rw [htl] at h; exact Except.noConfusion h
    | ok ys =>
      rw [htl] at h
      have h2 : Json.arr ys = Json.arr recs := by injection h
      have h3 : ys = recs := by injection h2
      subst h3
      obtain ⟨x0, hx0⟩ := tagList_mem sv pv xs ys htl r hr
      obtain ⟨kvs, _, hshape⟩ := tagOne_shape sv pv x0 r hx0
      exact ⟨kvs, hshape⟩
  | str s => cases s <;> simp [tagRecommendations] at h
  | obj kvs => cases kvs <;> simp [tagRecommendations] at h
  | null => simp [tagRecommendations] at h
  | bool b => simp [tagRecommendations] at h
  | num n => simp [tagRecommendations] at h

/-- The tagging stage after a truthy response: an array result consists of
tagged dicts only (the `.get` default and every other branch cannot produce
untagged elements). -/
theorem taggingStage_shape (sv pv : Json) (response : Json) (recs : JsonList)
    (h : (pyDictGet response recommendationsKey (.arr .nil)).bind
      (tagRecommendations sv pv) = .ok (.arr recs)) :
    ∀ r ∈ recs.toList, ∃ kvs,
      r = Json.obj (dictSet (dictSet kvs scopeKey sv) projectPathKey pv) := by
  cases hg : pyDictGet response recommendationsKey (.arr .nil) with
  | error e => rw [hg] at h; exact Except.noConfusion h
  | ok raw =>
    rw [hg] at h
    exact tagRecommendations_arr sv pv raw recs h

/-- Every recommendation in an array result of `analyze_project_prompts` is
a dict tagged with `scope="project"` and the supplied path. -/
theorem analyze_project_prompts_shape (agent : String → AgentBehavior)
    (prompts : List PromptRecord) (pp : Option String) (recs : JsonList)
    (h : (analyze_project_prompts agent prompts pp).1 = .ok (Json.arr recs)) :
    ∀ r ∈ recs.toList, ∃ kvs,
      r = Json.obj (dictSet (dictSet kvs scopeKey (Json.str "project".data)) projectPathKey
        (optPathJson pp)) := by
  intro r hr
  simp only [analyze_project_prompts] at h
  split at h
  · have h2 : Json.arr JsonList.nil = Json.arr recs := by injection h
    have h3 : JsonList.nil = recs := by injection h2
    subst h3
    simp [JsonList.toList] at hr
  · split at h
    · have h2 : Json.arr JsonList.nil = Json.arr recs := by injection h
      have h3 : JsonList.nil = recs := by injection h2
      subst h3
      simp [JsonList.toList] at hr
    · split at h
      · have h2 : Json.arr JsonList.nil = Json.arr recs := by injection h
        have h3 : JsonList.nil = recs := by injection h2
        subst h3
        simp [JsonList.toList] at hr
      · exact taggingStage_shape _ _ _ recs h r hr

/-- Every recommendation in an array result of
`analyze_cross_project_patterns` is a dict tagged with `scope="global"` and
a null path. -/
theorem analyze_cross_project_shape (agent : String → AgentBehavior)
    (m : List (String × List PromptRecord)) (recs : JsonList)
    (h : (analyze_cross_project_patterns agent m).1 = .ok (Json.arr recs)) :
    ∀ r ∈ recs.toList, ∃ kvs,
      r = Json.obj (dictSet (dictSet kvs scopeKey (Json.str "global".data)) projectPathKey
        Json.null) := by
  intro r hr
  simp only [analyze_cross_project_patterns] at h
  split at h
  · have h2 : Json.arr JsonList.nil = Json.arr recs := by injection h
    have h3 : JsonList.nil = recs := by injection h2
    subst h3
    simp [JsonList.toList] at hr
  · split at h
    · have h2 : Json.arr JsonList.nil = Json.arr recs := by injection h
      have h3 : JsonList.nil = recs := by injection h2
      subst h3
      simp [JsonList.toList] at hr
    · split at h
      · have h2 : Json.arr JsonList.nil = Json.arr recs := by injection h
        have h3 : JsonList.nil = recs := by injection h2
        subst h3
        simp [JsonList.toList] at hr
      · split at h
        · have h2 : Json.arr JsonList.nil = Json.arr recs := by injection h
          have h3 : JsonList.nil = recs := by injection h2
          subst h3
          simp [JsonList.toList] at hr
        · exact taggingStage_shape _ _ _ recs h r hr

/-- `call_cursor_agent` never reads captured stderr. -/
theorem call_cursor_agent_stderr (b1 b2 : AgentBehavior) (h : sameExceptStderr b1 b2) :
    call_cursor_agent b1 = call_cursor_agent b2 := by
  cases b1 with
  | completed rc1 out1 err1 =>
    cases b2 with
    | completed rc2 out2 err2 =>
      obtain ⟨h1, h2⟩ := h
      subst h1
      subst h2
      rfl
    | timeoutExpired => exact AgentBehavior.noConfusion h
    | fileNotFound => exact AgentBehavior.noConfusion h
    | otherException => exact AgentBehavior.noConfusion h
  | timeoutExpired => rw [show b2 = .timeoutExpired from h.symm]
  | fileNotFound => rw [show b2 = .fileNotFound from h.symm]
  | otherException => rw [show b2 = .otherException from h.symm]

/-- C7: each of the four invocation failure conditions of the external
agent call — executable not found, timeout exceeded, non-zero exit code,
and any other invocation-level fault — makes `call_cursor_agent` return the
"no result" value `None` instead of propagating a thrown fault. -/
theorem C7_invoker_failures (rc : Int) (out err : String) (hrc : rc ≠ 0) :
    call_cursor_agent .timeoutExpired = none ∧
    call_cursor_agent .fileNotFound = none ∧
    call_cursor_agent .otherException = none ∧
    call_cursor_agent (.completed rc out err) = none := by
  refine ⟨rfl, rfl, rfl, ?_⟩
  simp only [call_cursor_agent, if_pos hrc]

/-- Witness for C7 at exit code 1. -/
theorem C7_invoker_failures_witness :
    call_cursor_agent .timeoutExpired = none ∧
    call_cursor_agent .fileNotFound = none ∧
    call_cursor_agent .otherException = none ∧
    call_cursor_agent (.completed 1 "out" "err") = none :=
  C7_invoker_failures 1 "out" "err" (by decide)

/-- C8: on a successful exit whose stripped stdout contains no opening
brace and is not parseable (pure non-JSON text), recovery fails and
`call_cursor_agent` returns `None` without an uncaught exception. -/
theorem C8_nonjson_failure (out err : String)
    (h1 : lbrace ∉ pyStrip out.data) (h2 : json_loads (pyStrip out.data) = none) :
    call_cursor_agent (.completed 0 out err) = none := by
  simp only [call_cursor_agent]
  rw [if_neg (by simp)]
  rw [recoverOutput, h2]
  show recoverFromRaw (pyStrip out.data) = none
  unfold recoverFromRaw
  rw [strFind_not_mem _ _ h1]
  rw [if_neg (by intro hcon; exact absurd hcon.1 (by norm_num))]

/-- Witness for C8 at the spec's example input `"no idea"`. -/
theorem C8_nonjson_failure_witness :
    call_cursor_agent (.completed 0 "no idea" "") = none :=
  C8_nonjson_failure "no idea" "" (by decide) rfl

/-- C3: evaluation of the failing input. The agent output `[1]` is a valid
JSON array, so recovery succeeds with a truthy non-dict payload; the
aggregator then calls `.get` on it and both `analyze_project_prompts` and
`analyze_cross_project_patterns` raise `AttributeError` instead of
returning an empty list — the propagation policy of the spec is violated
by the code. -/
theorem C3_failing_input_eval :
    call_cursor_agent (.completed 0 "[1]" "") = some (.arr (.cons (.num 1) .nil)) ∧
    analyze_project_prompts (agentReturning "[1]") [sampleRecord] (some "A") =
      (.error .attributeError, 1) ∧
    analyze_cross_project_patterns (agentReturning "[1]")
      [("A", [sampleRecord]), ("B", [sampleRecord])] = (.error .attributeError, 1) :=
  ⟨rfl, rfl, rfl⟩

/-- C10: a recovered payload that is a JSON object without the
`recommendations` key makes both aggregator functions return the empty
list (the `.get` default degrades silently to zero recommendations). -/
theorem C10_missing_key (agent : String → AgentBehavior) (kvs : JsonObj)
    (prompts : List PromptRecord) (pp : Option String)
    (m : List (String × List PromptRecord))
    (hagent : ∀ s, call_cursor_agent (agent s) = some (Json.obj kvs))
    (hnokey : objLookup kvs recommendationsKey = none) :
    (analyze_project_prompts agent prompts pp).1 = .ok (.arr .nil) ∧
    (analyze_cross_project_patterns agent m).1 = .ok (.arr .nil) := by
  constructor
  · simp only [analyze_project_prompts]
    split
    · rfl
    · rw [hagent]
      cases kvs with
      | nil => rfl
      | cons k0 v0 t =>
        show ((Except.ok ((objLookup (JsonObj.cons k0 v0 t) recommendationsKey).getD
          (Json.arr .nil))).bind
            (tagRecommendations (Json.str "project".data) (optPathJson pp)), 1).1 =
          Except.ok (Json.arr .nil)
        rw [hnokey]
        rfl
  · simp only [analyze_cross_project_patterns]
    split
    · rfl
    · split
      · rfl
      · rw [hagent]
        cases kvs with
        | nil => rfl
        | cons k0 v0 t =>
          show ((Except.ok ((objLookup (JsonObj.cons k0 v0 t) recommendationsKey).getD
            (Json.arr .nil))).bind
              (tagRecommendations (Json.str "global".data) Json.null), 1).1 =
            Except.ok (Json.arr .nil)
          rw [hnokey]
          rfl

/-- Witness for C10 at the payload object with only a `foo` key. -/
theorem C10_missing_key_witness :
    (analyze_project_prompts (agentReturning "\x7b\"foo\": 17\x7d") [sampleRecord]
      (some "A")).1 = .ok (.arr .nil) ∧
    (analyze_cross_project_patterns (agentReturning "\x7b\"foo\": 17\x7d")
      [("A", [sampleRecord]), ("B", [sampleRecord])]).1 = .ok (.arr .nil) :=
  C10_missing_key (agentReturning "\x7b\"foo\": 17\x7d")
    (.cons "foo".data (.num 17) .nil) [sampleRecord] (some "A")
    [("A", [sampleRecord]), ("B", [sampleRecord])] (fun _ => rfl) rfl

/-- C9 (frame): scope tagging changes only the `scope` and `project_path`
fields of a recommendation dict — every other key still looks up to its
original value — and captured stderr never influences (so is never embedded
into) the recommendations returned by either aggregator function. -/
theorem C9_frame_effect (kvs : JsonObj) (sv pv : Json) (k : List Char)
    (hk1 : k ≠ scopeKey) (hk2 : k ≠ projectPathKey)
    (a1 a2 : String → AgentBehavior) (hsame : ∀ s, sameExceptStderr (a1 s) (a2 s))
    (prompts : List PromptRecord) (pp : Option String)
    (m : List (String × List PromptRecord)) :
    (∀ kvs2, tagOne sv pv (Json.obj kvs) = .ok (Json.obj kvs2) →
      objLookup kvs2 k = objLookup kvs k) ∧
    analyze_project_prompts a1 prompts pp = analyze_project_prompts a2 prompts pp ∧
    analyze_cross_project_patterns a1 m = analyze_cross_project_patterns a2 m := by
  refine ⟨?_, ?_, ?_⟩
  · intro kvs2 h
    have h2 : Json.obj (dictSet (dictSet kvs scopeKey sv) projectPathKey pv) =
        Json.obj kvs2 := by injection h
    have h3 : dictSet (dictSet kvs scopeKey sv) projectPathKey pv = kvs2 := by
      injection h2
    subst h3
    rw [objLookup_dictSet_ne _ _ _ _ hk2, objLookup_dictSet_ne _ _ _ _ hk1]
  · simp only [analyze_project_prompts]
    rw [call_cursor_agent_stderr _ _ (hsame _)]
  · simp only [analyze_cross_project_patterns]
    rw [call_cursor_agent_stderr _ _ (hsame _)]

/-- Witness for C9: a concrete recommendation dict keeps its `type` field
under tagging, and two agents differing only in stderr produce identical
results. -/
theorem C9_frame_effect_witness :
    (∀ kvs2, tagOne (Json.str "project".data) Json.null
        (Json.obj (.cons "type".data (.str "Rule".data) .nil)) = .ok (Json.obj kvs2) →
      objLookup kvs2 "type".data =
        objLookup (.cons "type".data (.str "Rule".data) .nil) "type".data) ∧
    analyze_project_prompts (agentReturning "[]") [sampleRecord] (some "A") =
      analyze_project_prompts (fun _ => .completed 0 "[]" "noise") [sampleRecord] (some "A") ∧
    analyze_cross_project_patterns (agentReturning "[]") [("A", [sampleRecord])] =
      analyze_cross_project_patterns (fun _ => .completed 0 "[]" "noise")
        [("A", [sampleRecord])] :=
  C9_frame_effect (.cons "type".data (.str "Rule".data) .nil)
    (Json.str "project".data) Json.null "type".data (by decide) (by decide)
    (agentReturning "[]") (fun _ => .completed 0 "[]" "noise")
    (fun _ => ⟨rfl, rfl⟩) [sampleRecord] (some "A") [("A", [sampleRecord])]

/-- C6: when the input exceeds the maximum count the formatted transcript
consists of exactly the maximum count of labeled blocks for the first
records in original order plus one final omission-summary line carrying
`len - max`; when the input fits, it is exactly one block per record with
no summary line. -/
theorem C6_format_truncation (prompts : List PromptRecord) (N : Nat) :
    (prompts.length > N →
      (formattedEntries prompts N).length = N + 1 ∧
      (∀ i, i < N → (formattedEntries prompts N)[i]? =
        prompts[i]?.map (fun p => promptBlock (i + 1) p)) ∧
      (formattedEntries prompts N).getLast? =
        some (omissionLine (prompts.length - N))) ∧
    (prompts.length ≤ N →
      (formattedEntries prompts N).length = prompts.length ∧
      (∀ i, (formattedEntries prompts N)[i]? =
        prompts[i]?.map (fun p => promptBlock (i + 1) p))) := by
  constructor
  · intro hlong
    have hA : ((prompts.take N).enum.map
        (fun ip => promptBlock (ip.1 + 1) ip.2)).length = N := by
      simp [List.enum_length, List.length_take]
      omega
    refine ⟨?_, ?_, ?_⟩
    · simp only [formattedEntries, if_pos hlong]
      simp [hA]
    · intro i hi
      simp only [formattedEntries, if_pos hlong]
      rw [List.getElem?_append]
      rw [if_pos (by rw [hA]; exact hi)]
      rw [List.getElem?_map, List.getElem?_enum, List.getElem?_take]
      rw [if_pos hi]
      cases prompts[i]? <;> simp
    · simp only [formattedEntries, if_pos hlong]
      exact List.getLast?_concat _
  · intro hshort
    have hnotlong : ¬prompts.length > N := by omega
    have htake : prompts.take N = prompts := List.take_of_length_le hshort
    refine ⟨?_, ?_⟩
    · simp only [formattedEntries, if_neg hnotlong, htake]
      simp [List.enum_length]
    · intro i
      simp only [formattedEntries, if_neg hnotlong, htake]
      rw [List.getElem?_map, List.getElem?_enum]
      cases prompts[i]? <;> simp

/-- Witness for C6: three records with maximum 2 (truncated), and one
record with maximum 2 (no summary). -/
theorem C6_format_truncation_witness :
    (formattedEntries [sampleRecord, sampleRecord, sampleRecord] 2).length = 2 + 1 ∧
    (formattedEntries [sampleRecord, sampleRecord, sampleRecord] 2).getLast? =
      some (omissionLine ([sampleRecord, sampleRecord, sampleRecord].length - 2)) ∧
    (formattedEntries [sampleRecord] 2).length = [sampleRecord].length :=
  ⟨((C6_format_truncation [sampleRecord, sampleRecord, sampleRecord] 2).1
      (by simp)).1,
   ((C6_format_truncation [sampleRecord, sampleRecord, sampleRecord] 2).1
      (by simp)).2.2,
   ((C6_format_truncation [sampleRecord] 2).2 (by simp)).1⟩

/-- Counterexample to C1: in the mapping `{"A": [one record], "B": []}`
exactly one distinct project has any records, yet cross-project analysis
invokes the agent (invocation count 1) and can return a non-empty list —
the code gates on the number of mapping keys, not on the number of
projects with records. -/
theorem C1_counterexample :
    (([("A", [sampleRecord]), ("B", ([] : List PromptRecord))].filter
      (fun pr => !pr.2.isEmpty)).length = 1) ∧
    analyze_cross_project_patterns
      (agentReturning "\x7b\"recommendations\": [\x7b\x7d]\x7d")
      [("A", [sampleRecord]), ("B", [])] =
      (.ok (.arr (.cons (Json.obj (.cons scopeKey (.str "global".data)
        (.cons projectPathKey Json.null .nil))) .nil)), 1) :=
  ⟨rfl, rfl⟩

/-- C1 (amended): cross-project analysis returns an empty list without
invoking the agent exactly when the mapping has fewer than 2 keys (however
populated) or when every project's record list is empty; whenever the
mapping has at least 2 keys and any project has a record, it builds the
request and performs exactly one invocation. -/
theorem C1_cross_project_gate (agent : String → AgentBehavior)
    (m : List (String × List PromptRecord)) :
    ((m.length < 2 ∨ ∀ pr ∈ m, pr.2 = []) →
      analyze_cross_project_patterns agent m = (.ok (.arr .nil), 0)) ∧
    (2 ≤ m.length → (∃ pr ∈ m, pr.2 ≠ []) →
      (analyze_cross_project_patterns agent m).2 = 1) := by
  constructor
  · intro h
    by_cases hlen : m.length < 2
    · simp only [analyze_cross_project_patterns, if_pos hlen]
    · rcases h with h | hall
      · exact absurd h hlen
      · have hemp : ((m.map (fun pr => pr.2.take 10)).flatten).isEmpty = true := by
          rw [List.isEmpty_iff, List.flatten_eq_nil_iff]
          intro xs hxs
          obtain ⟨pr, hpr, rfl⟩ := List.mem_map.mp hxs
          rw [hall pr hpr]
          rfl
        simp only [analyze_cross_project_patterns, if_neg hlen, hemp, if_true]
  · intro hlen hex
    have hnotlt : ¬m.length < 2 := by omega
    have hflat : (m.map (fun pr => pr.2.take 10)).flatten ≠ [] := by
      obtain ⟨pr, hpr, hpr2⟩ := hex
      rw [Ne, List.flatten_eq_nil_iff]
      intro hall
      have hthis := hall (pr.2.take 10) (List.mem_map.mpr ⟨pr, hpr, rfl⟩)
      cases hx : pr.2 with
      | nil => exact hpr2 hx
      | cons a l => rw [hx] at hthis; simp at hthis
    have hne : ((m.map (fun pr => pr.2.take 10)).flatten).isEmpty = false := by
      cases hval : ((m.map (fun pr => pr.2.take 10)).flatten).isEmpty with
      | false => rfl
      | true => exact absurd (List.isEmpty_iff.mp hval) hflat
    simp only [analyze_cross_project_patterns, if_neg hnotlt, hne]
    split
    · next hcontra => exact absurd hcontra (by simp)
    · split
      · rfl
      · split <;> rfl

/-- Witness for C1 (amended): a singleton mapping short-circuits with no
invocation; a two-project mapping with records invokes exactly once. -/
theorem C1_cross_project_gate_witness :
    analyze_cross_project_patterns (agentReturning "[]") [("A", [sampleRecord])] =
      (.ok (.arr .nil), 0) ∧
    (analyze_cross_project_patterns (agentReturning "[]")
      [("A", [sampleRecord]), ("B", [sampleRecord])]).2 = 1 :=
  ⟨(C1_cross_project_gate (agentReturning "[]") [("A", [sampleRecord])]).1
    (Or.inl (by simp)),
   (C1_cross_project_gate (agentReturning "[]")
      [("A", [sampleRecord]), ("B", [sampleRecord])]).2 (by simp)
    ⟨("A", [sampleRecord]), List.mem_cons_self _ _, by simp⟩⟩

/-- Counterexample to C2: a project-scoped call whose supplied path is null
(the parameter's default) produces a recommendation with `scope ==
"project"` and `project_path == null`, so `scope=project` does not imply a
non-null `project_path` for every produced recommendation. -/
theorem C2_counterexample :
    (analyze_project_prompts (agentReturning "\x7b\"recommendations\": [\x7b\x7d]\x7d")
      [sampleRecord] none).1 =
      .ok (.arr (.cons (Json.obj (.cons scopeKey (.str "project".data)
        (.cons projectPathKey Json.null .nil))) .nil)) ∧
    objLookup (.cons scopeKey (.str "project".data)
      (.cons projectPathKey Json.null .nil)) scopeKey = some (.str "project".data) ∧
    objLookup (.cons scopeKey (.str "project".data)
      (.cons projectPathKey Json.null .nil)) projectPathKey = some Json.null :=
  ⟨rfl, rfl, rfl⟩

/-- C2 (amended): every recommendation of a project-scoped call carries
`scope == "project"` and `project_path` equal to the supplied path — hence
non-null whenever the supplied path is non-null — and every recommendation
of the cross-project call carries `scope == "global"` and a null
`project_path`. -/
theorem C2_scope_invariant (agent : String → AgentBehavior)
    (prompts : List PromptRecord) (p : String)
    (m : List (String × List PromptRecord)) (recs grecs : JsonList)
    (h1 : (analyze_project_prompts agent prompts (some p)).1 = .ok (.arr recs))
    (h2 : (analyze_cross_project_patterns agent m).1 = .ok (.arr grecs)) :
    (∀ r ∈ recs.toList, ∃ kvs, r = Json.obj kvs ∧
      objLookup kvs scopeKey = some (.str "project".data) ∧
      objLookup kvs projectPathKey = some (.str p.data)) ∧
    (∀ r ∈ grecs.toList, ∃ kvs, r = Json.obj kvs ∧
      objLookup kvs scopeKey = some (.str "global".data) ∧
      objLookup kvs projectPathKey = some Json.null) := by
  constructor
  · intro r hr
    obtain ⟨kvs, hk⟩ := analyze_project_prompts_shape agent prompts (some p) recs h1 r hr
    exact ⟨_, hk, (tagged_lookups kvs (Json.str "project".data) (optPathJson (some p))).1,
      (tagged_lookups kvs (Json.str "project".data) (optPathJson (some p))).2⟩
  · intro r hr
    obtain ⟨kvs, hk⟩ := analyze_cross_project_shape agent m grecs h2 r hr
    exact ⟨_, hk, (tagged_lookups kvs (Json.str "global".data) Json.null).1,
      (tagged_lookups kvs (Json.str "global".data) Json.null).2⟩

/-- Witness for C2 (amended) at a stub agent returning one bare
recommendation object for both scopes. -/
theorem C2_scope_invariant_witness :
    (∀ r ∈ (JsonList.cons (Json.obj (.cons scopeKey (.str "project".data)
        (.cons projectPathKey (.str "A".data) .nil))) .nil).toList,
      ∃ kvs, r = Json.obj kvs ∧
        objLookup kvs scopeKey = some (.str "project".data) ∧
        objLookup kvs projectPathKey = some (.str "A".data)) ∧
    (∀ r ∈ (JsonList.cons (Json.obj (.cons scopeKey (.str "global".data)
        (.cons projectPathKey Json.null .nil))) .nil).toList,
      ∃ kvs, r = Json.obj kvs ∧
        objLookup kvs scopeKey = some (.str "global".data) ∧
        objLookup kvs projectPathKey = some Json.null) :=
  C2_scope_invariant (agentReturning "\x7b\"recommendations\": [\x7b\x7d]\x7d")
    [sampleRecord] "A" [("A", [sampleRecord]), ("B", [sampleRecord])]
    (.cons (Json.obj (.cons scopeKey (.str "project".data)
      (.cons projectPathKey (.str "A".data) .nil))) .nil)
    (.cons (Json.obj (.cons scopeKey (.str "global".data)
      (.cons projectPathKey Json.null .nil))) .nil)
    rfl rfl

/-- Counterexample to C4: for the wrapper whose `result` field is the
candidate `[{"a":1}]`, the direct structured parse of the whole candidate
succeeds (with the array), yet recovery returns the object parsed from the
substring between the first `{` and the last `}` — so the substring attempt
is not conditional on a direct-parse failure. -/
theorem C4_counterexample :
    json_loads "[\x7b\"a\":1\x7d]".data =
      some (.arr (.cons (.obj (.cons "a".data (.num 1) .nil)) .nil)) ∧
    recoverOutput (serializeJson (Json.obj (.cons resultKey
      (.str "[\x7b\"a\":1\x7d]".data) .nil))) =
      some (.obj (.cons "a".data (.num 1) .nil)) ∧
    some (Json.obj (.cons "a".data (.num 1) .nil)) ≠
      some (Json.arr (.cons (.obj (.cons "a".data (.num 1) .nil)) .nil)) :=
  ⟨rfl, rfl, by decide⟩

/-- C4 (amended): within a candidate payload (the string value of the
wrapper's `result` field), recovery attempts the substring between the
first `{` and the last `}` first whenever such a span exists, and attempts
the direct parse of the whole candidate only when no span exists; when the
chosen attempt fails to decode, the handler re-parses the raw output, which
returns the wrapper object itself. -/
theorem C4_substring_first (cand : List Char) :
    recoverOutput (serializeJson (Json.obj (.cons resultKey (.str cand) .nil))) =
      (if strFind cand lbrace ≥ 0 ∧ strRfind cand rbrace + 1 > strFind cand lbrace then
        match json_loads (pySlice cand (strFind cand lbrace) (strRfind cand rbrace + 1)) with
        | some v => some v
        | none => some (Json.obj (.cons resultKey (.str cand) .nil))
      else
        match json_loads cand with
        | some v => some v
        | none => some (Json.obj (.cons resultKey (.str cand) .nil))) :=
  recoverOutput_wrapper cand

/-- C5: the recovery round-trip. For every payload object `P` with a
`recommendations` key, an agent run that exits 0 and prints the wrapper
`{"result": json(P)}` makes `call_cursor_agent` return exactly `P`. -/
theorem C5_roundtrip (ms : JsonObj) (rv : Json) (err : String)
    (_hrec : objLookup ms recommendationsKey = some rv) :
    call_cursor_agent (.completed 0 (String.mk (serializeJson (Json.obj (.cons resultKey
      (.str (serializeJson (Json.obj ms))) .nil)))) err) = some (Json.obj ms) := by
  simp only [call_cursor_agent]
  rw [if_neg (by simp)]
  rw [pyStrip_serialized_obj, recoverOutput_wrapper]
  obtain ⟨u, hu⟩ := serializeJson_obj_shape ms
  have hfind : strFind (serializeJson (Json.obj ms)) lbrace = 0 := by
    rw [hu]; exact strFind_head _ _
  have hrfind : strRfind (serializeJson (Json.obj ms)) rbrace =
      ((u.length + 1 : Nat) : Int) := by
    rw [hu, show lbrace :: (u ++ [rbrace]) = (lbrace :: u) ++ [rbrace] by simp,
      strRfind_concat]
    simp
  have hlen : (serializeJson (Json.obj ms)).length = u.length + 2 := by
    rw [hu]; simp
  rw [hfind, hrfind]
  rw [if_pos (by constructor <;> omega)]
  rw [show ((u.length + 1 : Nat) : Int) + 1 =
      ((serializeJson (Json.obj ms)).length : Int) by rw [hlen]; push_cast; ring]
  rw [pySlice_all, json_loads_serialize]

/-- Witness for C5 at the payload `{"recommendations": []}`. -/
theorem C5_roundtrip_witness :
    call_cursor_agent (.completed 0 (String.mk (serializeJson (Json.obj (.cons resultKey
      (.str (serializeJson (Json.obj (.cons recommendationsKey (Json.arr .nil) .nil))))
      .nil)))) "") =
      some (Json.obj (.cons recommendationsKey (Json.arr .nil) .nil)) :=
  C5_roundtrip (.cons recommendationsKey (Json.arr .nil) .nil) (Json.arr .nil) "" rfl
